import Mathlib

/-!
Shallow embedding of the GWC multi-open KZG verifier
(`src/halo2_proofs/src/poly/kzg/multiopen/gwc/verifier.rs`) and the parts of
its supporting accumulator algebra that the verifier uses.  Scalars are an
arbitrary commutative ring `F` (the scalar field of the engine), group
elements an arbitrary type `G`; group arithmetic is only needed where an
accumulator is actually evaluated.
-/

/-- Error taxonomy. `SamplingError` is the variant produced by `verify_proof`
(line 62 of verifier.rs). Modelled from the spec: the `InvalidQuerySet`
variant of the spec's error taxonomy (§7); the error enum itself lives
outside the excerpt. -/
inductive Error where
  | SamplingError
  | InvalidQuerySet
deriving DecidableEq, Repr

/-- Outcome of running a piece of Rust code that may return `Result::Err`
or panic (a failed `assert!` / `assert_eq!`). -/
inductive VResult (α : Type) where
  | ok (a : α)
  | err (e : Error)
  | panic
deriving DecidableEq, Repr

/-- Modelled from the spec: the MSM accumulator (§4.2), an ordered list of
`(coefficient, element)` terms representing `Σ cᵢ • eᵢ` lazily
(`MSMKZG` of `poly/kzg/msm.rs`, outside the excerpt). -/
structure MSMKZG (F G : Type) where
  terms : List (F × G)
deriving DecidableEq, Repr

/-- `MSMKZG::new()`: the empty accumulator. -/
def MSMKZG.new {F G : Type} : MSMKZG F G := ⟨[]⟩

/-- Multiply every coefficient of a term list by `s`. -/
def scaleTerms {F G : Type} [Mul F] (s : F) (ts : List (F × G)) : List (F × G) :=
  ts.map (fun t => (s * t.1, t.2))

/-- `MSMKZG::scale`: multiply every existing term's coefficient by `s`. -/
def MSMKZG.scale {F G : Type} [Mul F] (m : MSMKZG F G) (s : F) : MSMKZG F G :=
  ⟨scaleTerms s m.terms⟩

/-- `MSMKZG::append_term`: add the term `coeff • elem` to the sum. -/
def MSMKZG.append_term {F G : Type} (m : MSMKZG F G) (coeff : F) (elem : G) :
    MSMKZG F G :=
  ⟨m.terms ++ [(coeff, elem)]⟩

/-- `MSMKZG::add_msm`: merge another accumulator's full term list in. -/
def MSMKZG.add_msm {F G : Type} (m other : MSMKZG F G) : MSMKZG F G :=
  ⟨m.terms ++ other.terms⟩

/-- Deferred evaluation of the accumulated linear combination as one
multi-scalar multiplication. -/
def MSMKZG.eval {F G : Type} [AddCommMonoid G] [SMul F G] (m : MSMKZG F G) : G :=
  (m.terms.map (fun t => t.1 • t.2)).sum

/-- Modelled from the spec: the dual accumulator (§4.3) pairing the two MSM
sides of the deferred pairing identity (`DualMSM` of `poly/kzg/msm.rs`,
outside the excerpt). -/
structure DualMSM (F G : Type) where
  left : MSMKZG F G
  right : MSMKZG F G
deriving DecidableEq, Repr

/-- `DualMSM::scale`: scale both sides uniformly. -/
def DualMSM.scale {F G : Type} [Mul F] (m : DualMSM F G) (s : F) : DualMSM F G :=
  ⟨m.left.scale s, m.right.scale s⟩

/-- Modelled from the spec: `DualMSM::check` (§4.3) evaluates both sides and
applies the pairing identity of the scheme, abstracted here as a boolean
oracle `pair` on the two evaluated group elements. -/
def DualMSM.check {F G : Type} [AddCommMonoid G] [SMul F G]
    (m : DualMSM F G) (pair : G → G → Bool) : Bool :=
  pair m.left.eval m.right.eval

/-- Modelled from the spec: the Guard (§2, §4.4), an opaque wrapper over a
not-yet-checked dual accumulator (`GuardKZG` of `poly/kzg/strategy.rs`). -/
structure GuardKZG (F G : Type) where
  msm_accumulator : DualMSM F G
deriving DecidableEq, Repr

/-- `GuardKZG::new`. -/
def GuardKZG.new {F G : Type} (m : DualMSM F G) : GuardKZG F G := ⟨m⟩

/-- `CommitmentReference`: a query's commitment is either a direct group
element or a borrowed MSM accumulator (`poly/query.rs`, outside the
excerpt; shape fixed by the `match` at lines 94-101 of verifier.rs). -/
inductive CommitmentReference (F G : Type) where
  | Commitment (c : G)
  | MSM (m : MSMKZG F G)
deriving DecidableEq, Repr

/-- `VerifierQuery`: one opening claim `(point, commitment, eval)`. -/
structure VerifierQuery (F G : Type) where
  point : F
  commitment : CommitmentReference F G
  eval : F
deriving DecidableEq, Repr

def VerifierQuery.get_point {F G : Type} (q : VerifierQuery F G) : F := q.point

def VerifierQuery.get_commitment {F G : Type} (q : VerifierQuery F G) :
    CommitmentReference F G := q.commitment

def VerifierQuery.get_eval {F G : Type} (q : VerifierQuery F G) : F := q.eval

/-- One point group produced by query grouping: a point and the queries
assigned to it. -/
structure CommitmentData (F G : Type) where
  point : F
  queries : List (VerifierQuery F G)
deriving DecidableEq, Repr

/-- Insert a query into the group carrying its point, or open a new group at
the end when no group carries it yet. -/
def insertQuery {F G : Type} [DecidableEq F] :
    List (CommitmentData F G) → VerifierQuery F G → List (CommitmentData F G)
  | [], q => [⟨q.point, [q]⟩]
  | g :: gs, q =>
    if g.point = q.point then ⟨g.point, g.queries ++ [q]⟩ :: gs
    else g :: insertQuery gs q

/-- Modelled from the spec: query grouping (§4.1) — partition the queries by
evaluation point, groups in first-occurrence order, each group preserving
the input order of its members (`construct_intermediate_sets` of
`multiopen/gwc/mod.rs`, outside the excerpt). -/
def construct_intermediate_sets {F G : Type} [DecidableEq F]
    (queries : List (VerifierQuery F G)) : List (CommitmentData F G) :=
  queries.foldl insertQuery []

/-- The distinct elements of a list in first-occurrence order. -/
def distinctPoints {F : Type} [DecidableEq F] (ps : List F) : List F :=
  ps.foldl (fun acc p => if p ∈ acc then acc else acc ++ [p]) []

/-- A transcript operation, recorded in the transcript's log. -/
inductive TOp where
  | squeeze
  | readPt
deriving DecidableEq, Repr

/-- Modelled from the spec: the transcript oracle (§6) — a deterministic
stream of challenge scalars and of point decodings (`none` = the next bytes
do not decode to a curve point), read sequentially.  `log` records every
operation performed, in order. -/
structure Transcript (F G : Type) where
  chalStream : Nat → F
  ptStream : Nat → Option G
  chalIdx : Nat
  ptIdx : Nat
  log : List TOp

/-- `squeeze_challenge_scalar`: draw the next challenge. -/
def Transcript.squeeze_challenge_scalar {F G : Type} (t : Transcript F G) :
    F × Transcript F G :=
  (t.chalStream t.chalIdx,
   { t with chalIdx := t.chalIdx + 1, log := t.log ++ [TOp.squeeze] })

/-- `read_point`: decode the next proof element as a curve point;
a decode failure is a `SamplingError` (verifier.rs line 62). -/
def Transcript.read_point {F G : Type} (t : Transcript F G) :
    Except Error (G × Transcript F G) :=
  match t.ptStream t.ptIdx with
  | some p =>
      .ok (p, { t with ptIdx := t.ptIdx + 1, log := t.log ++ [TOp.readPt] })
  | none => .error Error.SamplingError

/-- Lines 61-63 of verifier.rs: read `n` points sequentially, aborting at the
first decode failure. -/
def readPoints {F G : Type} (t : Transcript F G) :
    Nat → Except Error (List G × Transcript F G)
  | 0 => .ok ([], t)
  | n + 1 =>
    match t.read_point with
    | .error e => .error e
    | .ok (p, t') =>
      match readPoints t' n with
      | .error e => .error e
      | .ok (ps, t'') => .ok (p :: ps, t'')

/-- Modelled from the spec: the KZG public parameters (§6) expose the list
`g` of G1 generators; `g[0]` is the designated base generator. -/
structure ParamsKZG (G : Type) where
  g : List G

/-- The GWC verifier (verifier.rs lines 29-31). -/
structure VerifierGWC (G : Type) where
  params : ParamsKZG G

/-- `VerifierGWC::new`. -/
def VerifierGWC.mk' {G : Type} (params : ParamsKZG G) : VerifierGWC G := ⟨params⟩

/-- The four running values of the outer fold (verifier.rs lines 67-71). -/
structure FoldState (F G : Type) where
  commitment_multi : MSMKZG F G
  eval_multi : F
  witness : MSMKZG F G
  witness_with_aux : MSMKZG F G
deriving DecidableEq, Repr

/-- The initial fold state: all four running values zero. -/
def FoldState.init {F G : Type} [Zero F] : FoldState F G :=
  ⟨MSMKZG.new, 0, MSMKZG.new, MSMKZG.new⟩

/-- The inner query loop (verifier.rs lines 87-104): Horner fold of the
group's queries with base `v` into `commitment_batch`/`eval_batch`;
`assert_eq!(query.get_point(), z)` is a panic on mismatch (line 88). -/
def queryFold {F G : Type} [CommRing F] [DecidableEq F] (v z : F) :
    List (VerifierQuery F G) → MSMKZG F G → F → VResult (MSMKZG F G × F)
  | [], cb, eb => .ok (cb, eb)
  | q :: qs, cb, eb =>
    if q.get_point = z then
      let cb := cb.scale v
      let cb :=
        match q.get_commitment with
        | CommitmentReference.Commitment c => cb.append_term 1 c
        | CommitmentReference.MSM m => cb.add_msm m
      queryFold v z qs cb (eb * v + q.get_eval)
    else .panic

/-- The outer loop over point groups (verifier.rs lines 73-108):
`assert!(!queries.is_empty())` is a panic on an empty group (line 74). -/
def groupFold {F G : Type} [CommRing F] [DecidableEq F] (u v : F) :
    List (CommitmentData F G × G) → FoldState F G → VResult (FoldState F G)
  | [], st => .ok st
  | (cd, wi) :: rest, st =>
    match cd.queries with
    | [] => .panic
    | _ :: _ =>
      let z := cd.point
      let wwa := (st.witness_with_aux.scale u).append_term z wi
      let wit := (st.witness.scale u).append_term 1 wi
      let cm := st.commitment_multi.scale u
      let em := st.eval_multi * u
      match queryFold v z cd.queries MSMKZG.new 0 with
      | .panic => .panic
      | .err e => .err e
      | .ok (cb, eb) => groupFold u v rest ⟨cm.add_msm cb, em + eb, wit, wwa⟩

/-- `VerifierGWC::verify_proof` (verifier.rs lines 43-118): draw `v`, group
the queries, read one witness commitment per group, draw `u`, run the
folding loop, then fold everything into the supplied dual accumulator and
wrap it in a Guard.  The final transcript state is returned alongside. -/
def VerifierGWC.verify_proof {F G : Type} [CommRing F] [DecidableEq F]
    [Inhabited G] [Neg G] (self : VerifierGWC G) (transcript : Transcript F G)
    (queries : List (VerifierQuery F G)) (msm_accumulator : DualMSM F G) :
    VResult (GuardKZG F G × Transcript F G) :=
  let s1 := transcript.squeeze_challenge_scalar
  let v := s1.1
  let commitment_data := construct_intermediate_sets queries
  match readPoints s1.2 commitment_data.length with
  | .error e => .err e
  | .ok (w, t2) =>
    let s2 := t2.squeeze_challenge_scalar
    let u := s2.1
    match groupFold u v (commitment_data.zip w) FoldState.init with
    | .panic => .panic
    | .err e => .err e
    | .ok st =>
      let g0 : G := self.params.g.headI
      let acc : DualMSM F G :=
        ⟨msm_accumulator.left.add_msm st.witness,
         ((msm_accumulator.right.add_msm st.witness_with_aux).add_msm
            st.commitment_multi).append_term st.eval_multi (-g0)⟩
      .ok (GuardKZG.new acc, s2.2)

/-- Modelled from the spec: the batch strategy's state (§4.5) — a running
dual accumulator plus the injected randomness source, modelled as a stream
with a cursor (`BatchVerifier` of `poly/kzg/strategy.rs`). -/
structure BatchVerifier (F G : Type) where
  msm_accumulator : DualMSM F G
  rng : Nat → F
  rngIdx : Nat

/-- `BatchVerifier::with`: rebuild the strategy around an accumulator. -/
def BatchVerifier.withAcc {F G : Type} (acc : DualMSM F G) (rng : Nat → F)
    (rngIdx : Nat) : BatchVerifier F G :=
  ⟨acc, rng, rngIdx⟩

/-- `VerificationStrategy::process` (verifier.rs lines 131-140): draw one
random scalar, scale the running accumulator by it, hand the scaled
accumulator to `f`, and keep the Guard's accumulator on success. -/
def BatchVerifier.run {F G : Type} [Mul F] (self : BatchVerifier F G)
    (f : DualMSM F G → Except Error (GuardKZG F G)) :
    Except Error (BatchVerifier F G) :=
  let r := self.rng self.rngIdx
  let scaled := self.msm_accumulator.scale r
  match f scaled with
  | .error e => .error e
  | .ok guard => .ok (BatchVerifier.withAcc guard.msm_accumulator self.rng (self.rngIdx + 1))

/-- `VerificationStrategy::finalize` (verifier.rs lines 142-144). -/
def BatchVerifier.finalize {F G : Type} [AddCommMonoid G] [SMul F G]
    (self : BatchVerifier F G) (pair : G → G → Bool) : Bool :=
  self.msm_accumulator.check pair

/-- Fold a list of per-proof verification closures through `process`. -/
def runBatch {F G : Type} [Mul F] (bv : BatchVerifier F G) :
    List (DualMSM F G → Except Error (GuardKZG F G)) →
    Except Error (BatchVerifier F G)
  | [] => .ok bv
  | f :: fs =>
    match bv.run f with
    | .error e => .error e
    | .ok bv' => runBatch bv' fs

/-- Invoke the pairing oracle once, bumping the invocation counter. -/
def invokePairing {G : Type} (pair : G → G → Bool) (a b : G) (n : Nat) :
    Bool × Nat :=
  (pair a b, n + 1)

/-- `DualMSM::check` with the pairing invocation made observable. -/
def DualMSM.checkCounted {F G : Type} [AddCommMonoid G] [SMul F G]
    (m : DualMSM F G) (pair : G → G → Bool) (n : Nat) : Bool × Nat :=
  invokePairing pair m.left.eval m.right.eval n

/-- The whole batch flow (`process` per proof, one `finalize`), with the
pairing invocation counter threaded through.  `process` performs no pairing;
only the terminal `check` does. -/
def batchFlow {F G : Type} [Mul F] [AddCommMonoid G] [SMul F G]
    (bv : BatchVerifier F G)
    (fs : List (DualMSM F G → Except Error (GuardKZG F G)))
    (pair : G → G → Bool) (n : Nat) : Except Error Bool × Nat :=
  match runBatch bv fs with
  | .error e => (.error e, n)
  | .ok bv' =>
    let r := bv'.msm_accumulator.checkCounted pair n
    (.ok r.1, r.2)

/-- The points of a list of groups, in group order. -/
def pointsOf {F G : Type} (gs : List (CommitmentData F G)) : List F :=
  gs.map CommitmentData.point

/-- Closed form of the inner Horner fold's `commitment_batch` term list:
query `j` of `k` contributes its direct commitment with coefficient
`v ^ (k - 1 - j)`, or its nested accumulator's terms scaled by that power. -/
def cbTermsAux {F G : Type} [Monoid F] (v : F) :
    List (VerifierQuery F G) → List (F × G)
  | [] => []
  | q :: rest =>
    (match q.commitment with
     | CommitmentReference.Commitment c => [(v ^ rest.length, c)]
     | CommitmentReference.MSM m => scaleTerms (v ^ rest.length) m.terms) ++
    cbTermsAux v rest

/-- Closed form of the inner Horner fold's `eval_batch`:
`Σ_j evalⱼ · v ^ (k - 1 - j)`. -/
def ebAux {F G : Type} [Semiring F] (v : F) : List (VerifierQuery F G) → F
  | [] => 0
  | q :: rest => q.eval * v ^ rest.length + ebAux v rest

/-- Closed form of the outer fold's `witness` term list: group `i` of `N`
contributes `(u ^ (N - 1 - i)) · Wᵢ`. -/
def wTermsAux {F G : Type} [Monoid F] (u : F) :
    List (CommitmentData F G × G) → List (F × G)
  | [] => []
  | (_, wi) :: rest => (u ^ rest.length, wi) :: wTermsAux u rest

/-- Closed form of the outer fold's `witness_with_aux` term list: group `i`
contributes `(u ^ (N - 1 - i) · zᵢ) · Wᵢ`. -/
def wwaTermsAux {F G : Type} [Monoid F] (u : F) :
    List (CommitmentData F G × G) → List (F × G)
  | [] => []
  | (cd, wi) :: rest => (u ^ rest.length * cd.point, wi) :: wwaTermsAux u rest

/-- Closed form of the outer fold's `commitment_multi` term list: group `i`'s
batched commitment terms, scaled by `u ^ (N - 1 - i)`. -/
def cmTermsAux {F G : Type} [Monoid F] (u v : F) :
    List (CommitmentData F G × G) → List (F × G)
  | [] => []
  | (cd, _) :: rest =>
    scaleTerms (u ^ rest.length) (cbTermsAux v cd.queries) ++ cmTermsAux u v rest

/-- Closed form of the outer fold's `eval_multi`:
`Σ_i ebatchᵢ · u ^ (N - 1 - i)`. -/
def emAux {F G : Type} [Semiring F] (u v : F) :
    List (CommitmentData F G × G) → F
  | [] => 0
  | (cd, _) :: rest => ebAux v cd.queries * u ^ rest.length + emAux u v rest

/-- Two transcripts in the same read state: equal streams and equal cursors
(the operation log may differ). -/
def teq {F G : Type} (t₁ t₂ : Transcript F G) : Prop :=
  t₁.chalStream = t₂.chalStream ∧ t₁.ptStream = t₂.ptStream ∧
  t₁.chalIdx = t₂.chalIdx ∧ t₁.ptIdx = t₂.ptIdx

/- Concrete instances over `F = G = ℤ` used to witness the theorems. -/

/-- A concrete transcript whose challenges are all `2` and whose point reads
all decode to `5`. -/
def tcZ : Transcript ℤ ℤ := ⟨fun _ => 2, fun _ => some 5, 0, 0, []⟩

/-- A concrete transcript whose point reads all fail to decode. -/
def tcFailZ : Transcript ℤ ℤ := ⟨fun _ => 2, fun _ => none, 0, 0, []⟩

/-- A concrete query: point 3, direct commitment 7, claimed evaluation 11. -/
def qZ : VerifierQuery ℤ ℤ := ⟨3, CommitmentReference.Commitment 7, 11⟩

/-- A concrete one-query query set. -/
def qsZ : List (VerifierQuery ℤ ℤ) := [qZ]

/-- A concrete empty dual accumulator. -/
def accZ : DualMSM ℤ ℤ := ⟨⟨[]⟩, ⟨[]⟩⟩

/-- A concrete verifier whose parameters have `g[0] = 1`. -/
def vgwcZ : VerifierGWC ℤ := ⟨⟨[1]⟩⟩

/-- A concrete batch verifier with constant randomness 3. -/
def bvZ : BatchVerifier ℤ ℤ := ⟨⟨⟨[(1, 4)]⟩, ⟨[(2, 6)]⟩⟩, fun _ => 3, 0⟩

/-- The transcript state after `verify_proof` on `tcZ`/`qsZ`. -/
def tEZ : Transcript ℤ ℤ :=
  ⟨fun _ => 2, fun _ => some 5, 2, 1, [TOp.squeeze, TOp.readPt, TOp.squeeze]⟩

/-- The transcript state after the point reads on `tcZ`/`qsZ`. -/
def tMidZ : Transcript ℤ ℤ :=
  ⟨fun _ => 2, fun _ => some 5, 1, 1, [TOp.squeeze, TOp.readPt]⟩

/-- A transcript in the same read state as `tcZ` but with a different log. -/
def tcZ2 : Transcript ℤ ℤ := ⟨fun _ => 2, fun _ => some 5, 0, 0, [TOp.squeeze]⟩

/-- The point group of `qsZ`. -/
def cdZ : CommitmentData ℤ ℤ := ⟨3, [qZ]⟩

/-- The grouped input of the outer fold for `qsZ` with witness commitment 5. -/
def psZ : List (CommitmentData ℤ ℤ × ℤ) := [(cdZ, 5)]

/-- The fold state after running the outer fold on `psZ` with `u = v = 2`. -/
def stZ : FoldState ℤ ℤ := ⟨⟨[(1, 7)]⟩, 11, ⟨[(1, 5)]⟩, ⟨[(3, 5)]⟩⟩

/-- The guard returned by `verify_proof` on `tcZ`/`qsZ`/`accZ`. -/
def gZ : GuardKZG ℤ ℤ := ⟨⟨⟨[(1, 5)]⟩, ⟨[(3, 5), (1, 7), (11, -1)]⟩⟩⟩

/-- A verification closure that accepts any accumulator unchanged. -/
def fOkZ : DualMSM ℤ ℤ → Except Error (GuardKZG ℤ ℤ) := fun m => .ok ⟨m⟩

/-- A concrete pairing oracle: equality of the two evaluated sides. -/
def pairZ : ℤ → ℤ → Bool := fun a b => a == b

/-- The batch verifier after one `process` step of `bvZ` with `fOkZ`. -/
def bvZ' : BatchVerifier ℤ ℤ := ⟨⟨⟨[(3, 4)]⟩, ⟨[(6, 6)]⟩⟩, fun _ => 3, 1⟩

/-! ### Basic lemmas about the accumulator algebra -/

theorem scaleTerms_nil {F G : Type} [Mul F] (s : F) :
    scaleTerms s ([] : List (F × G)) = [] := rfl

theorem scaleTerms_append {F G : Type} [Mul F] (s : F) (a b : List (F × G)) :
    scaleTerms s (a ++ b) = scaleTerms s a ++ scaleTerms s b := by
  simp [scaleTerms]

theorem scaleTerms_scaleTerms {F G : Type} [Semigroup F] (a b : F)
    (ts : List (F × G)) :
    scaleTerms a (scaleTerms b ts) = scaleTerms (a * b) ts := by
  simp [scaleTerms, Function.comp, mul_assoc]

theorem scaleTerms_one {F G : Type} [Monoid F] (ts : List (F × G)) :
    scaleTerms 1 ts = ts := by
  induction ts with
  | nil => rfl
  | cons t ts _ => simp [scaleTerms]

/-! ### The inner query fold -/

theorem queryFold_ne_err {F G : Type} [CommRing F] [DecidableEq F] (v z : F)
    (qs : List (VerifierQuery F G)) (cb : MSMKZG F G) (eb : F) (e : Error) :
    queryFold v z qs cb eb ≠ .err e := by
  induction qs generalizing cb eb with
  | nil => simp [queryFold]
  | cons q qs ih =>
      simp only [queryFold]
      split
      · exact ih _ _
      · simp

theorem queryFold_ok_points {F G : Type} [CommRing F] [DecidableEq F]
    (v z : F) (qs : List (VerifierQuery F G)) (cb : MSMKZG F G) (eb : F)
    (r : MSMKZG F G × F) (h : queryFold v z qs cb eb = .ok r) :
    ∀ q ∈ qs, q.get_point = z := by
  induction qs generalizing cb eb with
  | nil => intro q hq; cases hq
  | cons q qs ih =>
      intro p hp
      simp only [queryFold] at h
      split at h
      · rcases List.mem_cons.mp hp with hp | hp
        · subst hp; assumption
        · exact ih _ _ h p hp
      · cases h

theorem queryFold_ok_closed {F G : Type} [CommRing F] [DecidableEq F]
    (v z : F) (qs : List (VerifierQuery F G)) (cb : MSMKZG F G) (eb : F)
    (h : ∀ q ∈ qs, q.get_point = z) :
    queryFold v z qs cb eb =
      .ok (⟨scaleTerms (v ^ qs.length) cb.terms ++ cbTermsAux v qs⟩,
           eb * v ^ qs.length + ebAux v qs) := by
  induction qs generalizing cb eb with
  | nil =>
      simp [queryFold, cbTermsAux, ebAux, scaleTerms_one]
  | cons q qs ih =>
      have hq : q.get_point = z := h q (List.mem_cons_self q qs)
      simp only [queryFold, if_pos hq]
      rw [ih _ _ (fun p hp => h p (List.mem_cons_of_mem q hp))]
      rcases q with ⟨qp, qc, qe⟩
      cases qc with
      | Commitment c =>
          simp only [VResult.ok.injEq, Prod.mk.injEq, MSMKZG.mk.injEq,
            cbTermsAux, ebAux, VerifierQuery.get_eval, VerifierQuery.get_commitment,
            MSMKZG.append_term, MSMKZG.scale, List.length_cons]
          constructor
          · rw [scaleTerms_append, scaleTerms_scaleTerms]
            simp [scaleTerms, pow_succ, List.append_assoc, mul_one]
          · ring
      | MSM m =>
          simp only [VResult.ok.injEq, Prod.mk.injEq, MSMKZG.mk.injEq,
            cbTermsAux, ebAux, VerifierQuery.get_eval, VerifierQuery.get_commitment,
            MSMKZG.add_msm, MSMKZG.scale, List.length_cons]
          constructor
          · rw [scaleTerms_append, scaleTerms_scaleTerms]
            simp [pow_succ, List.append_assoc]
          · ring

/-! ### The outer group fold -/

theorem groupFold_ne_err {F G : Type} [CommRing F] [DecidableEq F] (u v : F)
    (ps : List (CommitmentData F G × G)) (st : FoldState F G) (e : Error) :
    groupFold u v ps st ≠ .err e := by
  induction ps generalizing st with
  | nil => simp [groupFold]
  | cons p ps ih =>
      rcases p with ⟨cd, wi⟩
      simp only [groupFold]
      rcases hqs : cd.queries with _ | ⟨q, qs⟩
      · simp
      · rcases hqf : queryFold v cd.point cd.queries MSMKZG.new 0 with r | e' | _
        · rw [hqs] at hqf
          simp only [hqf]
          exact ih _
        · rw [hqs] at hqf
          exact absurd hqf (queryFold_ne_err _ _ _ _ _ _)
        · rw [hqs] at hqf
          simp [hqf]

theorem groupFold_ok_inv {F G : Type} [CommRing F] [DecidableEq F] (u v : F)
    (ps : List (CommitmentData F G × G)) (st st' : FoldState F G)
    (h : groupFold u v ps st = .ok st') :
    ∀ p ∈ ps, p.1.queries ≠ [] ∧ ∀ q ∈ p.1.queries, q.get_point = p.1.point := by
  induction ps generalizing st with
  | nil => intro p hp; cases hp
  | cons hd ps ih =>
      intro p hp
      rcases hd with ⟨cd, wi⟩
      simp only [groupFold] at h
      rcases hqs : cd.queries with _ | ⟨q0, qs0⟩
      · rw [hqs] at h; cases h
      · rw [hqs] at h
        rcases hqf : queryFold v cd.point (q0 :: qs0) MSMKZG.new 0 with r | e' | _
        · rw [hqf] at h
          rcases List.mem_cons.mp hp with hp | hp
          · subst hp
            refine ⟨by simp [hqs], ?_⟩
            have := queryFold_ok_points v cd.point (q0 :: qs0) MSMKZG.new 0 r hqf
            simpa [hqs] using this
          · exact ih _ h p hp
        · rw [hqf] at h; cases h
        · rw [hqf] at h; cases h

theorem groupFold_ok_closed {F G : Type} [CommRing F] [DecidableEq F] (u v : F)
    (ps : List (CommitmentData F G × G)) (st st' : FoldState F G)
    (h : groupFold u v ps st = .ok st') :
    st'.witness.terms =
      scaleTerms (u ^ ps.length) st.witness.terms ++ wTermsAux u ps ∧
    st'.witness_with_aux.terms =
      scaleTerms (u ^ ps.length) st.witness_with_aux.terms ++ wwaTermsAux u ps ∧
    st'.commitment_multi.terms =
      scaleTerms (u ^ ps.length) st.commitment_multi.terms ++ cmTermsAux u v ps ∧
    st'.eval_multi = st.eval_multi * u ^ ps.length + emAux u v ps := by
  induction ps generalizing st with
  | nil =>
      simp only [groupFold] at h
      cases h
      simp [wTermsAux, wwaTermsAux, cmTermsAux, emAux, scaleTerms_one]
  | cons hd ps ih =>
      rcases hd with ⟨cd, wi⟩
      simp only [groupFold] at h
      rcases hqs : cd.queries with _ | ⟨q0, qs0⟩
      · rw [hqs] at h; cases h
      · rw [hqs] at h
        rcases hqf : queryFold v cd.point (q0 :: qs0) MSMKZG.new 0 with r | e' | _
        · rw [hqf] at h
          have hpts := queryFold_ok_points v cd.point (q0 :: qs0) MSMKZG.new 0 r hqf
          have hclosed := queryFold_ok_closed v cd.point (q0 :: qs0) MSMKZG.new 0 hpts
          rw [hqf] at hclosed
          have hr : r = (⟨cbTermsAux v (q0 :: qs0)⟩, ebAux v (q0 :: qs0)) := by
            injection hclosed with h1
            rw [h1]
            simp [MSMKZG.new, scaleTerms]
          subst hr
          have hrec := ih _ h
          rcases hrec with ⟨hw, hwwa, hcm, hem⟩
          refine ⟨?_, ?_, ?_, ?_⟩
          · rw [hw]
            simp only [MSMKZG.append_term, MSMKZG.scale, wTermsAux,
              List.length_cons, scaleTerms_append, scaleTerms_scaleTerms]
            simp [scaleTerms, pow_succ, List.append_assoc, mul_one]
          · rw [hwwa]
            simp only [MSMKZG.append_term, MSMKZG.scale, wwaTermsAux,
              List.length_cons, scaleTerms_append, scaleTerms_scaleTerms]
            simp [scaleTerms, pow_succ, List.append_assoc]
          · rw [hcm]
            simp only [MSMKZG.add_msm, MSMKZG.scale, cmTermsAux, hqs,
              List.length_cons, scaleTerms_append, scaleTerms_scaleTerms]
            simp [pow_succ, List.append_assoc]
          · rw [hem]
            simp only [emAux, hqs, List.length_cons]
            ring
        · rw [hqf] at h; cases h
        · rw [hqf] at h; cases h

/-! ### Transcript reads -/

theorem readPoints_ok_state {F G : Type} (n : Nat) (t t' : Transcript F G)
    (ps : List G) (h : readPoints t n = .ok (ps, t')) :
    t'.chalStream = t.chalStream ∧ t'.ptStream = t.ptStream ∧
    t'.chalIdx = t.chalIdx ∧ t'.ptIdx = t.ptIdx + n ∧
    t'.log = t.log ++ List.replicate n TOp.readPt ∧ ps.length = n := by
  induction n generalizing t ps with
  | zero =>
      simp only [readPoints] at h
      cases h
      simp
  | succ n ih =>
      simp only [readPoints, Transcript.read_point] at h
      rcases hp : t.ptStream t.ptIdx with _ | p
      · rw [hp] at h; cases h
      · rw [hp] at h
        simp only at h
        rcases hrec : readPoints
            ({ t with ptIdx := t.ptIdx + 1, log := t.log ++ [TOp.readPt] } :
              Transcript F G) n with e | pr
        · rw [hrec] at h; cases h
        · rcases pr with ⟨ps', t''⟩
          rw [hrec] at h
          cases h
          rcases ih _ _ hrec with ⟨h1, h2, h3, h4, h5, h6⟩
          refine ⟨h1, h2, h3, ?_, ?_, by simp [h6]⟩
          · rw [h4]
            show t.ptIdx + 1 + n = t.ptIdx + (n + 1)
            omega
          · rw [h5]
            simp [List.replicate_succ]

theorem readPoints_err_sampling {F G : Type} (n : Nat) (t : Transcript F G)
    (e : Error) (h : readPoints t n = .error e) : e = Error.SamplingError := by
  induction n generalizing t with
  | zero => simp [readPoints] at h
  | succ n ih =>
      simp only [readPoints, Transcript.read_point] at h
      rcases hp : t.ptStream t.ptIdx with _ | p
      · rw [hp] at h
        simp only [Except.error.injEq] at h
        exact h.symm
      · rw [hp] at h
        simp only at h
        rcases hrec : readPoints
            ({ t with ptIdx := t.ptIdx + 1, log := t.log ++ [TOp.readPt] } :
              Transcript F G) n with e' | pr
        · rw [hrec] at h
          cases h
          exact ih _ hrec
        · rcases pr with ⟨ps', t''⟩
          rw [hrec] at h
          cases h

theorem readPoints_err_iff {F G : Type} (n : Nat) (t : Transcript F G) :
    (∃ e, readPoints t n = .error e) ↔
    ∃ i < n, t.ptStream (t.ptIdx + i) = none := by
  induction n generalizing t with
  | zero =>
      constructor
      · rintro ⟨e, h⟩; simp [readPoints] at h
      · rintro ⟨i, hi, _⟩; omega
  | succ n ih =>
      simp only [readPoints, Transcript.read_point]
      rcases hp : t.ptStream t.ptIdx with _ | p
      · constructor
        · rintro -
          exact ⟨0, by omega, by simpa using hp⟩
        · rintro -
          exact ⟨Error.SamplingError, rfl⟩
      · simp only
        rcases hrec : readPoints
            ({ t with ptIdx := t.ptIdx + 1, log := t.log ++ [TOp.readPt] } :
              Transcript F G) n with e' | pr
        · constructor
          · rintro -
            have := (ih _).mp ⟨e', hrec⟩
            rcases this with ⟨i, hi, hnone⟩
            refine ⟨i + 1, by omega, ?_⟩
            simpa [Nat.add_assoc, Nat.add_comm 1 i] using hnone
          · rintro -
            exact ⟨e', rfl⟩
        · rcases pr with ⟨ps', t''⟩
          constructor
          · rintro ⟨e, h⟩; cases h
          · rintro ⟨i, hi, hnone⟩
            exfalso
            rcases i with _ | j
            · rw [Nat.add_zero] at hnone
              rw [hnone] at hp; cases hp
            · have : ∃ e, readPoints
                  ({ t with ptIdx := t.ptIdx + 1, log := t.log ++ [TOp.readPt] } :
                    Transcript F G) n = .error e := by
                refine (ih _).mpr ⟨j, by omega, ?_⟩
                simpa [Nat.add_assoc, Nat.add_comm 1 j] using hnone
              rcases this with ⟨e, he⟩
              rw [he] at hrec; cases hrec

theorem readPoints_congr {F G : Type} (n : Nat) (t₁ t₂ : Transcript F G)
    (h : teq t₁ t₂) :
    (∀ e, readPoints t₁ n = .error e → readPoints t₂ n = .error e) ∧
    (∀ ps t₁', readPoints t₁ n = .ok (ps, t₁') →
      ∃ t₂', readPoints t₂ n = .ok (ps, t₂') ∧ teq t₁' t₂') := by
  induction n generalizing t₁ t₂ with
  | zero =>
      constructor
      · intro e he; simp [readPoints] at he
      · intro ps t₁' hok
        simp only [readPoints] at hok
        cases hok
        exact ⟨t₂, rfl, h⟩
  | succ n ih =>
      rcases h with ⟨hc, hpstr, hci, hpi⟩
      have hsame : t₂.ptStream t₂.ptIdx = t₁.ptStream t₁.ptIdx := by
        rw [hpstr, hpi]
      constructor
      · intro e he
        simp only [readPoints, Transcript.read_point] at he ⊢
        rcases hp : t₁.ptStream t₁.ptIdx with _ | p
        · rw [hp] at he
          rw [hsame, hp]
          exact he
        · rw [hp] at he
          rw [hsame, hp]
          simp only at he ⊢
          have hteq : teq
              ({ t₁ with ptIdx := t₁.ptIdx + 1, log := t₁.log ++ [TOp.readPt] } :
                Transcript F G)
              ({ t₂ with ptIdx := t₂.ptIdx + 1, log := t₂.log ++ [TOp.readPt] } :
                Transcript F G) := ⟨hc, hpstr, hci, by rw [hpi]⟩
          rcases hrec : readPoints
              ({ t₁ with ptIdx := t₁.ptIdx + 1, log := t₁.log ++ [TOp.readPt] } :
                Transcript F G) n with e' | pr
          · rw [(ih _ _ hteq).1 e' hrec]
            rw [hrec] at he
            exact he
          · rcases pr with ⟨ps', t''⟩
            rw [hrec] at he
            cases he
      · intro ps t₁' hok
        simp only [readPoints, Transcript.read_point] at hok ⊢
        rcases hp : t₁.ptStream t₁.ptIdx with _ | p
        · rw [hp] at hok; cases hok
        · rw [hp] at hok
          rw [hsame, hp]
          simp only at hok ⊢
          have hteq : teq
              ({ t₁ with ptIdx := t₁.ptIdx + 1, log := t₁.log ++ [TOp.readPt] } :
                Transcript F G)
              ({ t₂ with ptIdx := t₂.ptIdx + 1, log := t₂.log ++ [TOp.readPt] } :
                Transcript F G) := ⟨hc, hpstr, hci, by rw [hpi]⟩
          rcases hrec : readPoints
              ({ t₁ with ptIdx := t₁.ptIdx + 1, log := t₁.log ++ [TOp.readPt] } :
                Transcript F G) n with e' | pr
          · rw [hrec] at hok; cases hok
          · rcases pr with ⟨psm, tm⟩
            rcases (ih _ _ hteq).2 psm tm hrec with ⟨tm₂, hok₂, hteq₂⟩
            rw [hrec] at hok
            cases hok
            rw [hok₂]
            exact ⟨tm₂, rfl, hteq₂⟩

/-! ### Query grouping -/

theorem insertQuery_points {F G : Type} [DecidableEq F]
    (gs : List (CommitmentData F G)) (q : VerifierQuery F G) :
    pointsOf (insertQuery gs q) =
      if q.point ∈ pointsOf gs then pointsOf gs else pointsOf gs ++ [q.point] := by
  induction gs with
  | nil => simp [insertQuery, pointsOf]
  | cons g gs ih =>
      simp only [insertQuery]
      by_cases hg : g.point = q.point
      · rw [if_pos hg]
        simp [pointsOf, hg]
      · rw [if_neg hg]
        have hne : ¬ q.point = g.point := fun hh => hg hh.symm
        simp only [pointsOf, List.map_cons] at ih ⊢
        rw [ih]
        by_cases hmem : q.point ∈ gs.map CommitmentData.point
        · simp [hmem, hne]
        · simp [hmem, hne]

theorem cis_points_general {F G : Type} [DecidableEq F]
    (qs : List (VerifierQuery F G)) (gs : List (CommitmentData F G)) :
    pointsOf (qs.foldl insertQuery gs) =
      (qs.map VerifierQuery.point).foldl
        (fun acc p => if p ∈ acc then acc else acc ++ [p]) (pointsOf gs) := by
  induction qs generalizing gs with
  | nil => simp
  | cons q qs ih =>
      simp only [List.foldl_cons, List.map_cons]
      rw [ih, insertQuery_points]

theorem cis_points {F G : Type} [DecidableEq F]
    (qs : List (VerifierQuery F G)) :
    pointsOf (construct_intermediate_sets qs) =
      distinctPoints (qs.map VerifierQuery.point) := by
  have := cis_points_general qs ([] : List (CommitmentData F G))
  simpa [construct_intermediate_sets, distinctPoints, pointsOf] using this

theorem cis_length {F G : Type} [DecidableEq F]
    (qs : List (VerifierQuery F G)) :
    (construct_intermediate_sets qs : List (CommitmentData F G)).length =
      (distinctPoints (qs.map VerifierQuery.point)).length := by
  have h := cis_points qs
  have : (pointsOf (construct_intermediate_sets qs)).length =
      (distinctPoints (qs.map VerifierQuery.point)).length := by rw [h]
  simpa [pointsOf] using this

/-! ### Inverting a successful `verify_proof` run -/

theorem verify_ok_elim {F G : Type} [CommRing F] [DecidableEq F] [Inhabited G]
    [Neg G] (self : VerifierGWC G) (t : Transcript F G)
    (qs : List (VerifierQuery F G)) (acc : DualMSM F G) (g : GuardKZG F G)
    (t' : Transcript F G) (h : self.verify_proof t qs acc = .ok (g, t')) :
    ∃ w t₂ st,
      readPoints t.squeeze_challenge_scalar.2
          (construct_intermediate_sets qs :
            List (CommitmentData F G)).length = .ok (w, t₂) ∧
      groupFold t₂.squeeze_challenge_scalar.1 t.squeeze_challenge_scalar.1
          ((construct_intermediate_sets qs).zip w) FoldState.init = .ok st ∧
      g = GuardKZG.new
            ⟨acc.left.add_msm st.witness,
             ((acc.right.add_msm st.witness_with_aux).add_msm
                st.commitment_multi).append_term st.eval_multi
               (-self.params.g.headI)⟩ ∧
      t' = t₂.squeeze_challenge_scalar.2 := by
  simp only [VerifierGWC.verify_proof] at h
  rcases hr : readPoints t.squeeze_challenge_scalar.2
      (construct_intermediate_sets qs :
        List (CommitmentData F G)).length with e | wt₂
  · rw [hr] at h; cases h
  · rcases wt₂ with ⟨w, t₂⟩
    rw [hr] at h
    simp only at h
    rcases hg : groupFold t₂.squeeze_challenge_scalar.1
        t.squeeze_challenge_scalar.1
        ((construct_intermediate_sets qs).zip w) FoldState.init with st | e | _
    · rw [hg] at h
      simp only [VResult.ok.injEq, Prod.mk.injEq] at h
      exact ⟨w, t₂, st, rfl, hg, h.1.symm, h.2.symm⟩
    · rw [hg] at h; cases h
    · rw [hg] at h; cases h

/-! ### Error behaviour of `verify_proof` -/

theorem verify_err_elim {F G : Type} [CommRing F] [DecidableEq F] [Inhabited G]
    [Neg G] (self : VerifierGWC G) (t : Transcript F G)
    (qs : List (VerifierQuery F G)) (acc : DualMSM F G) (e : Error)
    (h : self.verify_proof t qs acc = .err e) :
    e = Error.SamplingError ∧
    ∃ i < (construct_intermediate_sets qs :
        List (CommitmentData F G)).length, t.ptStream (t.ptIdx + i) = none := by
  simp only [VerifierGWC.verify_proof] at h
  rcases hr : readPoints t.squeeze_challenge_scalar.2
      (construct_intermediate_sets qs :
        List (CommitmentData F G)).length with e' | wt₂
  · rw [hr] at h
    simp only [VResult.err.injEq] at h
    subst h
    refine ⟨readPoints_err_sampling _ _ _ hr, ?_⟩
    have := (readPoints_err_iff _ t.squeeze_challenge_scalar.2).mp ⟨e', hr⟩
    simpa [Transcript.squeeze_challenge_scalar] using this
  · rcases wt₂ with ⟨w, t₂⟩
    rw [hr] at h
    simp only at h
    rcases hg : groupFold t₂.squeeze_challenge_scalar.1
        t.squeeze_challenge_scalar.1
        ((construct_intermediate_sets qs).zip w) FoldState.init with st | e'' | _
    · rw [hg] at h; cases h
    · exact absurd hg (groupFold_ne_err _ _ _ _ _)
    · rw [hg] at h; cases h

theorem verify_err_intro {F G : Type} [CommRing F] [DecidableEq F] [Inhabited G]
    [Neg G] (self : VerifierGWC G) (t : Transcript F G)
    (qs : List (VerifierQuery F G)) (acc : DualMSM F G)
    (h : ∃ i < (construct_intermediate_sets qs :
        List (CommitmentData F G)).length, t.ptStream (t.ptIdx + i) = none) :
    self.verify_proof t qs acc = .err Error.SamplingError := by
  have h' : ∃ i < (construct_intermediate_sets qs :
      List (CommitmentData F G)).length,
      (t.squeeze_challenge_scalar.2).ptStream
        ((t.squeeze_challenge_scalar.2).ptIdx + i) = none := by
    simpa [Transcript.squeeze_challenge_scalar] using h
  rcases (readPoints_err_iff _ t.squeeze_challenge_scalar.2).mpr h' with ⟨e, he⟩
  have hes : e = Error.SamplingError := readPoints_err_sampling _ _ _ he
  subst hes
  simp only [VerifierGWC.verify_proof]
  rw [he]

/-! ### Claim theorems -/

/-- C1: on success, `verify_proof` updates the externally supplied dual
accumulator by exactly `left += witness`, then `right += witness_with_aux`,
then `right += commitment_multi`, then `right += eval_multi · (−g0)` with
`g0` the first element of the public parameters, in that order (the term
lists concatenate in exactly that order), and returns a Guard wrapping the
updated accumulator.  No pairing is computed: in this embedding the pairing
oracle is an argument only of `DualMSM.check`, which `verify_proof` does
not receive. -/
theorem verify_proof_accumulator_update {F G : Type} [CommRing F]
    [DecidableEq F] [Inhabited G] [Neg G] (self : VerifierGWC G)
    (t t' t₂ : Transcript F G) (qs : List (VerifierQuery F G))
    (acc : DualMSM F G) (g : GuardKZG F G) (w : List G) (st : FoldState F G)
    (h : self.verify_proof t qs acc = .ok (g, t'))
    (hw : readPoints t.squeeze_challenge_scalar.2
        (construct_intermediate_sets qs :
          List (CommitmentData F G)).length = .ok (w, t₂))
    (hst : groupFold t₂.squeeze_challenge_scalar.1
        t.squeeze_challenge_scalar.1
        ((construct_intermediate_sets qs).zip w) FoldState.init = .ok st) :
    g = GuardKZG.new
        ⟨acc.left.add_msm st.witness,
         ((acc.right.add_msm st.witness_with_aux).add_msm
            st.commitment_multi).append_term st.eval_multi
           (-self.params.g.headI)⟩ ∧
    t' = t₂.squeeze_challenge_scalar.2 := by
  rcases verify_ok_elim self t qs acc g t' h with
    ⟨w', t₂', st', hw', hst', hgef, ht'⟩
  rw [hw] at hw'
  simp only [Except.ok.injEq, Prod.mk.injEq] at hw'
  rcases hw' with ⟨hwe, hte⟩
  subst hwe
  subst hte
  rw [hst] at hst'
  simp only [VResult.ok.injEq] at hst'
  subst hst'
  exact ⟨hgef, ht'⟩

/-- Witness for C1 at the concrete run over `ℤ`. -/
theorem verify_proof_accumulator_update_witness :
    gZ = GuardKZG.new
        ⟨accZ.left.add_msm stZ.witness,
         ((accZ.right.add_msm stZ.witness_with_aux).add_msm
            stZ.commitment_multi).append_term stZ.eval_multi
           (-vgwcZ.params.g.headI)⟩ ∧
    tEZ = tMidZ.squeeze_challenge_scalar.2 :=
  verify_proof_accumulator_update vgwcZ tcZ tEZ tMidZ qsZ accZ gZ [5] stZ
    rfl rfl rfl

/-- C2: the outer loop is a Horner fold in `u`: in each iteration all four
running values are scaled by `u` before group `i` is folded in, `1 · Wᵢ` is
appended to `witness` and `zᵢ · Wᵢ` to `witness_with_aux`; consequently,
starting from the zero state, group `i` of `N` ends with weight
`u ^ (N − 1 − i)` (0-based; `u ^ (N − i)` for 1-based `i`), as recorded by
the closed forms `wTermsAux`, `wwaTermsAux`, `cmTermsAux` and `emAux`. -/
theorem groupFold_horner_weights {F G : Type} [CommRing F] [DecidableEq F]
    (u v : F) (ps : List (CommitmentData F G × G)) (st' : FoldState F G)
    (h : groupFold u v ps FoldState.init = .ok st') :
    st'.witness.terms = wTermsAux u ps ∧
    st'.witness_with_aux.terms = wwaTermsAux u ps ∧
    st'.commitment_multi.terms = cmTermsAux u v ps ∧
    st'.eval_multi = emAux u v ps := by
  rcases groupFold_ok_closed u v ps FoldState.init st' h with ⟨h1, h2, h3, h4⟩
  refine ⟨?_, ?_, ?_, ?_⟩
  · simpa [FoldState.init, MSMKZG.new, scaleTerms] using h1
  · simpa [FoldState.init, MSMKZG.new, scaleTerms] using h2
  · simpa [FoldState.init, MSMKZG.new, scaleTerms] using h3
  · simpa [FoldState.init] using h4

/-- Witness for C2 at the concrete one-group fold over `ℤ`. -/
theorem groupFold_horner_weights_witness :
    stZ.witness.terms = wTermsAux 2 psZ ∧
    stZ.witness_with_aux.terms = wwaTermsAux 2 psZ ∧
    stZ.commitment_multi.terms = cmTermsAux 2 2 psZ ∧
    stZ.eval_multi = emAux 2 2 psZ :=
  groupFold_horner_weights 2 2 psZ stZ rfl

/-- C3: for a group whose queries all sit at its point `z`, the inner loop
is a Horner fold with base `v` starting from zero: `commitment_batch` ends
as `cbTermsAux` (a direct commitment enters as a coefficient-1 term, a
nested accumulator by merging its terms) and `eval_batch` as `ebAux`;
afterwards one outer step merges `commitment_batch` into `commitment_multi`
and adds `eval_batch` into `eval_multi`. -/
theorem queryFold_horner_batch {F G : Type} [CommRing F] [DecidableEq F]
    (u v z : F) (qs : List (VerifierQuery F G))
    (hz : ∀ q ∈ qs, q.get_point = z) :
    queryFold v z qs MSMKZG.new 0 = .ok (⟨cbTermsAux v qs⟩, ebAux v qs) ∧
    ∀ (st : FoldState F G) (wi : G) (ps : List (CommitmentData F G × G)),
      qs ≠ [] →
      groupFold u v ((⟨z, qs⟩, wi) :: ps) st =
        groupFold u v ps
          ⟨(st.commitment_multi.scale u).add_msm ⟨cbTermsAux v qs⟩,
           st.eval_multi * u + ebAux v qs,
           (st.witness.scale u).append_term 1 wi,
           (st.witness_with_aux.scale u).append_term z wi⟩ := by
  have hq : queryFold v z qs MSMKZG.new 0 =
      .ok (⟨cbTermsAux v qs⟩, ebAux v qs) := by
    rw [queryFold_ok_closed v z qs MSMKZG.new 0 hz]
    simp [MSMKZG.new, scaleTerms]
  refine ⟨hq, ?_⟩
  intro st wi ps hne
  rcases hqs : qs with _ | ⟨q0, qs0⟩
  · exact absurd hqs hne
  · simp only [groupFold, ← hqs, hq]

/-- Witness for C3 at the concrete group over `ℤ`. -/
theorem queryFold_horner_batch_witness :
    queryFold (2 : ℤ) 3 qsZ MSMKZG.new 0 =
      .ok (⟨cbTermsAux 2 qsZ⟩, ebAux 2 qsZ) ∧
    groupFold (2 : ℤ) 2 [((⟨3, qsZ⟩ : CommitmentData ℤ ℤ), (5 : ℤ))]
        FoldState.init =
      groupFold (2 : ℤ) 2 []
        ⟨((FoldState.init : FoldState ℤ ℤ).commitment_multi.scale 2).add_msm
           ⟨cbTermsAux 2 qsZ⟩,
         (FoldState.init : FoldState ℤ ℤ).eval_multi * 2 + ebAux 2 qsZ,
         ((FoldState.init : FoldState ℤ ℤ).witness.scale 2).append_term 1 5,
         ((FoldState.init : FoldState ℤ ℤ).witness_with_aux.scale
            2).append_term 3 5⟩ :=
  ⟨(queryFold_horner_batch 2 2 3 qsZ (by decide)).1,
   (queryFold_horner_batch 2 2 3 qsZ (by decide)).2 FoldState.init 5 []
     (by decide)⟩

theorem distinctAux_mem {F : Type} [DecidableEq F] (l : List F)
    (acc : List F) (x : F) :
    x ∈ l.foldl (fun acc p => if p ∈ acc then acc else acc ++ [p]) acc ↔
      x ∈ acc ∨ x ∈ l := by
  induction l generalizing acc with
  | nil => simp
  | cons p l ih =>
      simp only [List.foldl_cons]
      by_cases hp : p ∈ acc
      · rw [if_pos hp, ih]
        constructor
        · rintro (hx | hx)
          · exact Or.inl hx
          · exact Or.inr (List.mem_cons_of_mem p hx)
        · rintro (hx | hx)
          · exact Or.inl hx
          · rcases List.mem_cons.mp hx with hx | hx
            · subst hx; exact Or.inl hp
            · exact Or.inr hx
      · rw [if_neg hp, ih]
        simp only [List.mem_append, List.mem_cons, List.mem_singleton]
        tauto

theorem distinctAux_nodup {F : Type} [DecidableEq F] (l : List F)
    (acc : List F) (h : acc.Nodup) :
    (l.foldl (fun acc p => if p ∈ acc then acc else acc ++ [p]) acc).Nodup := by
  induction l generalizing acc with
  | nil => exact h
  | cons p l ih =>
      simp only [List.foldl_cons]
      by_cases hp : p ∈ acc
      · rw [if_pos hp]; exact ih _ h
      · rw [if_neg hp]
        refine ih _ ?_
        simp [List.nodup_append, h, hp]

/-- `distinctPoints l` holds exactly the elements of `l`. -/
theorem distinctPoints_mem {F : Type} [DecidableEq F] (l : List F) (x : F) :
    x ∈ distinctPoints l ↔ x ∈ l := by
  rw [distinctPoints, distinctAux_mem]
  simp

/-- `distinctPoints l` has no duplicates, so its length is the number of
distinct elements of `l`. -/
theorem distinctPoints_nodup {F : Type} [DecidableEq F] (l : List F) :
    (distinctPoints l).Nodup :=
  distinctAux_nodup l [] (by simp)

/-- C4: a successful `verify_proof` call touches the transcript in exactly
the sequence: one challenge draw (for `v`), then one point read per point
group, then one challenge draw (for `u`) — nothing else; the number of
point reads equals the number of distinct evaluation points among the
queries (not the number of queries). -/
theorem verify_proof_transcript_trace {F G : Type} [CommRing F]
    [DecidableEq F] [Inhabited G] [Neg G] (self : VerifierGWC G)
    (t t' : Transcript F G) (qs : List (VerifierQuery F G))
    (acc : DualMSM F G) (g : GuardKZG F G)
    (h : self.verify_proof t qs acc = .ok (g, t')) :
    t'.log = t.log ++ [TOp.squeeze] ++
      List.replicate (construct_intermediate_sets qs :
        List (CommitmentData F G)).length TOp.readPt ++ [TOp.squeeze] ∧
    t'.chalIdx = t.chalIdx + 2 ∧
    t'.ptIdx = t.ptIdx + (construct_intermediate_sets qs :
      List (CommitmentData F G)).length ∧
    (construct_intermediate_sets qs :
      List (CommitmentData F G)).length =
      (distinctPoints (qs.map VerifierQuery.point)).length := by
  rcases verify_ok_elim self t qs acc g t' h with ⟨w, t₂, st, hw, hst, hgef, ht'⟩
  rcases readPoints_ok_state _ _ _ _ hw with ⟨h1, h2, h3, h4, h5, h6⟩
  subst ht'
  refine ⟨?_, ?_, ?_, cis_length qs⟩
  · show t₂.log ++ [TOp.squeeze] = _
    rw [h5]
    simp [Transcript.squeeze_challenge_scalar, List.append_assoc]
  · show t₂.chalIdx + 1 = _
    rw [h3]
    simp only [Transcript.squeeze_challenge_scalar]
  · show t₂.ptIdx = _
    rw [h4]
    simp [Transcript.squeeze_challenge_scalar]

/-- Witness for C4 at the concrete run over `ℤ`. -/
theorem verify_proof_transcript_trace_witness :
    tEZ.log = tcZ.log ++ [TOp.squeeze] ++
      List.replicate (construct_intermediate_sets qsZ).length TOp.readPt ++
      [TOp.squeeze] ∧
    tEZ.chalIdx = tcZ.chalIdx + 2 ∧
    tEZ.ptIdx = tcZ.ptIdx + (construct_intermediate_sets qsZ).length ∧
    (construct_intermediate_sets qsZ).length =
      (distinctPoints (qsZ.map VerifierQuery.point)).length :=
  verify_proof_transcript_trace vgwcZ tcZ tEZ qsZ accZ gZ rfl

/-- C5 counterexample: on a group whose query sits at a different point, the
loop aborts by a failed assertion (a panic), which is not the recoverable
`InvalidQuerySet` rejection the claim describes. -/
theorem invalid_group_panics_not_error :
    groupFold (2 : ℤ) 2 [((⟨0, [qZ]⟩ : CommitmentData ℤ ℤ), (5 : ℤ))]
        FoldState.init = VResult.panic ∧
    (VResult.panic : VResult (FoldState ℤ ℤ)) ≠
      VResult.err Error.InvalidQuerySet :=
  ⟨rfl, by decide⟩

/-- C5 amended: `verify_proof` never returns `InvalidQuerySet` (its only
error is `SamplingError`); a point-mismatched query or an empty group makes
the loop abort via `assert!`/`assert_eq!` (a panic, not a recoverable
error), and a successful fold guarantees every group was nonempty with all
its queries at the group's point. -/
theorem verify_proof_no_invalid_query_set :
    (∀ (F G : Type) [CommRing F] [DecidableEq F] [Inhabited G] [Neg G]
       (self : VerifierGWC G) (t : Transcript F G)
       (qs : List (VerifierQuery F G)) (acc : DualMSM F G),
       self.verify_proof t qs acc ≠ VResult.err Error.InvalidQuerySet) ∧
    (∀ (F G : Type) [CommRing F] [DecidableEq F] (u v : F)
       (ps : List (CommitmentData F G × G)) (st st' : FoldState F G),
       groupFold u v ps st = .ok st' →
       ∀ p ∈ ps, p.1.queries ≠ [] ∧
         ∀ q ∈ p.1.queries, q.get_point = p.1.point) := by
  constructor
  · intro F G _ _ _ _ self t qs acc hcontra
    exact Error.noConfusion (verify_err_elim self t qs acc _ hcontra).1
  · intro F G _ _ u v ps st st' h
    exact groupFold_ok_inv u v ps st st' h

/-- Witness for the amended C5 at concrete inputs over `ℤ`. -/
theorem verify_proof_no_invalid_query_set_witness :
    vgwcZ.verify_proof tcFailZ qsZ accZ ≠
      VResult.err Error.InvalidQuerySet ∧
    (cdZ.queries ≠ [] ∧ ∀ q ∈ cdZ.queries, q.get_point = cdZ.point) :=
  ⟨verify_proof_no_invalid_query_set.1 ℤ ℤ vgwcZ tcFailZ qsZ accZ,
   verify_proof_no_invalid_query_set.2 ℤ ℤ 2 2 psZ FoldState.init stZ
     (by rfl) (cdZ, 5) (by decide)⟩

/-- C6: `verify_proof` fails with the fatal `SamplingError` exactly when one
of the `N` witness-commitment point reads fails to decode (`N` the group
count), and `SamplingError` is its only error; being a pure function of its
inputs, a failing run returns nothing but the error, leaving the caller's
state untouched. -/
theorem verify_proof_sampling_error_iff {F G : Type} [CommRing F]
    [DecidableEq F] [Inhabited G] [Neg G] (self : VerifierGWC G)
    (t : Transcript F G) (qs : List (VerifierQuery F G))
    (acc : DualMSM F G) :
    (self.verify_proof t qs acc = VResult.err Error.SamplingError ↔
      ∃ i < (construct_intermediate_sets qs :
          List (CommitmentData F G)).length,
        t.ptStream (t.ptIdx + i) = none) ∧
    ∀ e, self.verify_proof t qs acc = VResult.err e →
      e = Error.SamplingError := by
  refine ⟨⟨?_, ?_⟩, ?_⟩
  · intro h
    exact (verify_err_elim self t qs acc _ h).2
  · intro h
    exact verify_err_intro self t qs acc h
  · intro e he
    exact (verify_err_elim self t qs acc e he).1

/-- Witness for C6: the concrete transcript whose point reads fail makes
`verify_proof` return `SamplingError`. -/
theorem verify_proof_sampling_error_iff_witness :
    vgwcZ.verify_proof tcFailZ qsZ accZ = VResult.err Error.SamplingError :=
  (verify_proof_sampling_error_iff vgwcZ tcFailZ qsZ accZ).1.mpr
    ⟨0, by decide, rfl⟩

/-- C7: each `process` call draws exactly one scalar from the injected
randomness source (the one at the current cursor, advancing it by exactly
one), scales the running accumulator by it before any per-proof work,
invokes the verification closure with the scaled accumulator, and on
success keeps the returned Guard's accumulator as the new running
accumulator (failures propagate). -/
theorem process_scales_then_replaces {F G : Type} [Mul F]
    (bv : BatchVerifier F G)
    (f : DualMSM F G → Except Error (GuardKZG F G)) :
    bv.run f = Except.map
      (fun gd => BatchVerifier.withAcc gd.msm_accumulator bv.rng
        (bv.rngIdx + 1))
      (f (bv.msm_accumulator.scale (bv.rng bv.rngIdx))) := by
  cases hf : f (bv.msm_accumulator.scale (bv.rng bv.rngIdx)) with
  | error e => simp [BatchVerifier.run, hf, Except.map]
  | ok gd => simp [BatchVerifier.run, hf, Except.map]

/-- C8: `finalize` returns exactly `check` of the running dual accumulator,
and across a whole batch flow (`process` once per proof, then `finalize`)
the pairing oracle is invoked exactly once, however many proofs were folded
in. -/
theorem finalize_single_pairing_check {F G : Type} [Mul F] [AddCommMonoid G]
    [SMul F G] (bv bv' : BatchVerifier F G)
    (fs : List (DualMSM F G → Except Error (GuardKZG F G)))
    (pair : G → G → Bool) (n : Nat) (h : runBatch bv fs = .ok bv') :
    batchFlow bv fs pair n = (.ok (bv'.finalize pair), n + 1) ∧
    bv'.finalize pair = bv'.msm_accumulator.check pair := by
  constructor
  · simp [batchFlow, h, DualMSM.checkCounted, invokePairing,
      BatchVerifier.finalize, DualMSM.check]
  · rfl

/-- Witness for C8 at the concrete one-proof batch over `ℤ`. -/
theorem finalize_single_pairing_check_witness :
    batchFlow bvZ [fOkZ] pairZ 0 = (.ok (bvZ'.finalize pairZ), 1) ∧
    bvZ'.finalize pairZ = bvZ'.msm_accumulator.check pairZ :=
  finalize_single_pairing_check bvZ bvZ' [fOkZ] pairZ 0 (by rfl)

/-- C9: `verify_proof` is deterministic: from two transcripts in the same
read state (equal streams and cursors, so identical proof bytes) with the
same query set and the same input accumulator, the challenge draws for `v`
and `u` coincide and a successful run yields the very same Guard (equal
accumulator term lists), the final transcripts again agreeing in read
state. -/
theorem verify_proof_deterministic {F G : Type} [CommRing F] [DecidableEq F]
    [Inhabited G] [Neg G] (self : VerifierGWC G) (t₁ t₂ : Transcript F G)
    (qs : List (VerifierQuery F G)) (acc : DualMSM F G) (h : teq t₁ t₂) :
    t₁.chalStream t₁.chalIdx = t₂.chalStream t₂.chalIdx ∧
    t₁.chalStream (t₁.chalIdx + 1) = t₂.chalStream (t₂.chalIdx + 1) ∧
    ∀ g t₁', self.verify_proof t₁ qs acc = .ok (g, t₁') →
      ∃ t₂', self.verify_proof t₂ qs acc = .ok (g, t₂') ∧ teq t₁' t₂' := by
  obtain ⟨hc, hpstr, hci, hpi⟩ := h
  refine ⟨by rw [hc, hci], by rw [hc, hci], ?_⟩
  intro g t₁' hok
  simp only [VerifierGWC.verify_proof] at hok ⊢
  have hteq1 : teq t₁.squeeze_challenge_scalar.2
      t₂.squeeze_challenge_scalar.2 :=
    ⟨hc, hpstr, by simp [Transcript.squeeze_challenge_scalar, hci],
     by simp [Transcript.squeeze_challenge_scalar, hpi]⟩
  have hv : t₁.squeeze_challenge_scalar.1 = t₂.squeeze_challenge_scalar.1 := by
    simp [Transcript.squeeze_challenge_scalar, hc, hci]
  rcases hr : readPoints t₁.squeeze_challenge_scalar.2
      (construct_intermediate_sets qs :
        List (CommitmentData F G)).length with e | wt
  · rw [hr] at hok; cases hok
  · rcases wt with ⟨w, tm⟩
    rw [hr] at hok
    simp only at hok
    rcases (readPoints_congr _ _ _ hteq1).2 w tm hr with ⟨tm₂, hr₂, hteq₂⟩
    rw [hr₂]
    simp only
    have hu : tm.squeeze_challenge_scalar.1 = tm₂.squeeze_challenge_scalar.1 := by
      rcases hteq₂ with ⟨a, b, c, d⟩
      simp [Transcript.squeeze_challenge_scalar, a, c]
    rw [← hu, ← hv]
    rcases hg : groupFold tm.squeeze_challenge_scalar.1
        t₁.squeeze_challenge_scalar.1
        ((construct_intermediate_sets qs).zip w) FoldState.init
        with st | e | _
    · rw [hg] at hok
      simp only [VResult.ok.injEq, Prod.mk.injEq] at hok
      refine ⟨tm₂.squeeze_challenge_scalar.2, ?_, ?_⟩
      · simp only [VResult.ok.injEq, Prod.mk.injEq]
        exact ⟨hok.1, trivial⟩
      · rw [← hok.2]
        rcases hteq₂ with ⟨a, b, c, d⟩
        exact ⟨a, b, by simp [Transcript.squeeze_challenge_scalar, c], d⟩
    · rw [hg] at hok; cases hok
    · rw [hg] at hok; cases hok

/-- Witness for C9: a transcript differing from `tcZ` only in its log
produces the identical Guard. -/
theorem verify_proof_deterministic_witness :
    ∃ t₂', vgwcZ.verify_proof tcZ2 qsZ accZ = VResult.ok (gZ, t₂') ∧
      teq tEZ t₂' :=
  (verify_proof_deterministic vgwcZ tcZ tcZ2 qsZ accZ
    (by exact ⟨rfl, rfl, rfl, rfl⟩)).2.2 gZ tEZ (by rfl)

/-- C10: `verify_proof` never removes, rescales or reorders the terms
already in the supplied accumulator: on success both input term lists
survive verbatim as prefixes, the left side extended only by the witness
terms, the right side only by the `witness_with_aux` terms, the
`commitment_multi` terms and the final `eval_multi · (−g0)` term. -/
theorem verify_proof_frame {F G : Type} [CommRing F] [DecidableEq F]
    [Inhabited G] [Neg G] (self : VerifierGWC G) (t t' : Transcript F G)
    (qs : List (VerifierQuery F G)) (acc : DualMSM F G) (g : GuardKZG F G)
    (h : self.verify_proof t qs acc = .ok (g, t')) :
    ∃ wT wwaT cmT em,
      g.msm_accumulator.left.terms = acc.left.terms ++ wT ∧
      g.msm_accumulator.right.terms =
        acc.right.terms ++ wwaT ++ cmT ++ [(em, -self.params.g.headI)] := by
  rcases verify_ok_elim self t qs acc g t' h with ⟨w, t₂, st, hw, hst, hgef, ht'⟩
  subst hgef
  exact ⟨st.witness.terms, st.witness_with_aux.terms,
    st.commitment_multi.terms, st.eval_multi,
    by simp [GuardKZG.new, MSMKZG.add_msm, MSMKZG.append_term],
    by simp [GuardKZG.new, MSMKZG.add_msm, MSMKZG.append_term,
      List.append_assoc]⟩

/-- Witness for C10 at the concrete run over `ℤ`. -/
theorem verify_proof_frame_witness :
    ∃ wT wwaT cmT em,
      gZ.msm_accumulator.left.terms = accZ.left.terms ++ wT ∧
      gZ.msm_accumulator.right.terms =
        accZ.right.terms ++ wwaT ++ cmT ++ [(em, -vgwcZ.params.g.headI)] :=
  verify_proof_frame vgwcZ tcZ tEZ qsZ accZ gZ (by rfl)
